import Mathlib

/-!
Shallow embedding of the Student Performance Dashboard (src/script.js).

Marks are modelled as integers (the code obtains them via parseInt), ids as
integers, and the derived average as an exact rational; Math.round is
modelled as floor (x + 1/2), which is its behaviour on the values that
arise here.
-/

/-- The five fixed subjects (const SUBJECTS in script.js). -/
inductive Subject
  | math
  | science
  | english
  | history
  | computer
deriving DecidableEq, Repr, Fintype

/-- Iteration order of the subjects (const SUBJECTS). -/
def SUBJECTS : List Subject :=
  [Subject.math, Subject.science, Subject.english, Subject.history, Subject.computer]

/-- Display labels (const SUBJECT_LABELS). -/
def SUBJECT_LABELS : Subject → String
  | Subject.math => "Math"
  | Subject.science => "Science"
  | Subject.english => "English"
  | Subject.history => "History"
  | Subject.computer => "Computer"

/-- A student record: id, roll number, name and per-subject marks. -/
structure Student where
  id : Int
  rollNo : String
  name : String
  marks : Subject → Int
deriving DecidableEq

/-- Math.round: round half toward positive infinity, i.e. floor (q + 1/2). -/
def jsRound (q : ℚ) : Int := ⌊q + 1 / 2⌋

/-- Sum of the five subject marks (Object.values iterates in SUBJECTS order). -/
def sumMarks (marks : Subject → Int) : Int := (SUBJECTS.map marks).sum

/-- calculateAverage: Math.round((sum / values.length) * 10) / 10. -/
def calculateAverage (marks : Subject → Int) : ℚ :=
  ((jsRound (((sumMarks marks : ℚ) / (SUBJECTS.length : ℚ)) * 10) : ℚ)) / 10

/-- Spec-side definition, following the spec's words: round half away from
zero (at the integer position). -/
def specRoundHalfAwayFromZero (q : ℚ) : Int :=
  if 0 ≤ q then ⌊q + 1 / 2⌋ else -⌊-q + 1 / 2⌋

/-- Spec-side definition, following the spec's words: the arithmetic mean of
the 5 subject values. -/
def specMean (marks : Subject → Int) : ℚ := (sumMarks marks : ℚ) / 5

/-- Marks of a student who scores 90 everywhere (spec example). -/
def marksAll90 : Subject → Int := fun _ => 90

/-- Marks 95, 92, 88, 90, 98 (spec example, mean 92.6). -/
def marksExample : Subject → Int
  | Subject.math => 95
  | Subject.science => 92
  | Subject.english => 88
  | Subject.history => 90
  | Subject.computer => 98

/-- A student annotated with the derived average (the map step of
calculateRanks before sorting). -/
structure StudentA where
  student : Student
  average : ℚ
deriving DecidableEq

/-- A RankedStudent: student, average and dense competition rank. -/
structure StudentR where
  student : Student
  average : ℚ
  rank : Nat
deriving DecidableEq

/-- The comparator (a, b) => b.average - a.average as an ordering relation:
a comes no later than b when b.average <= a.average. -/
def avgGe (a b : StudentA) : Prop := b.average ≤ a.average

instance : DecidableRel avgGe := fun a b => inferInstanceAs (Decidable (b.average ≤ a.average))

instance : IsTotal StudentA avgGe := ⟨fun a b => le_total b.average a.average⟩

instance : IsTrans StudentA avgGe := ⟨fun _ _ _ hab hbc => le_trans hbc hab⟩

/-- The rank-assignment loop of calculateRanks for indices i >= 1: prevAvg is
the average at index i - 1 and currentRank the rank assigned there; when the
current average is strictly smaller than prevAvg, currentRank becomes i + 1. -/
def assignRanksAux (prevAvg : ℚ) (i : Nat) (currentRank : Nat) : List StudentA → List StudentR
  | [] => []
  | s :: rest =>
    let r := if s.average < prevAvg then i + 1 else currentRank
    ⟨s.student, s.average, r⟩ :: assignRanksAux s.average (i + 1) r rest

/-- The rank-assignment loop of calculateRanks: index 0 always gets rank 1. -/
def assignRanks : List StudentA → List StudentR
  | [] => []
  | s :: rest => ⟨s.student, s.average, 1⟩ :: assignRanksAux s.average 1 1 rest

/-- calculateRanks: annotate every student with the average, sort by average
descending, then assign dense competition ranks. -/
def calculateRanks (students : List Student) : List StudentR :=
  let studentsWithAvg := students.map (fun s => StudentA.mk s (calculateAverage s.marks))
  let sorted := List.insertionSort avgGe studentsWithAvg
  assignRanks sorted

/-- Number of entries of a list of annotated students whose average is
strictly higher than a. -/
def countHigher (l : List StudentA) (a : ℚ) : Nat :=
  (l.filter (fun s => decide (a < s.average))).length

/-- A three-student roster with averages 70, 70 and 60 (spec example for
dense competition ranking). -/
def rosterTie : List Student :=
  [⟨1, "1", "A", fun _ => 70⟩, ⟨2, "2", "B", fun _ => 70⟩, ⟨3, "3", "C", fun _ => 60⟩]

/-- The first entry of calculateRanks rosterTie (used as a concrete ranked
student in the C1 witness). -/
def rankedTieHead : StudentR := ⟨⟨1, "1", "A", fun _ => 70⟩, 70, 1⟩

/-- ASCII lower-casing of one character (models String.prototype.toLowerCase
of the host environment on the ASCII range). -/
def charLower (c : Char) : Char :=
  if 'A' ≤ c ∧ c ≤ 'Z' then Char.ofNat (c.toNat + 32) else c

/-- Lower-case a string (models value.toLowerCase()). -/
def lowerStr (s : String) : String := ⟨s.data.map charLower⟩

/-- JS whitespace test for the characters relevant here. -/
def isJsSpace (c : Char) : Bool :=
  c == ' ' || c == '\t' || c == '\n' || c == '\r'

/-- Strip leading and trailing whitespace (models String.prototype.trim). -/
def jsTrim (s : String) : String :=
  ⟨((s.data.dropWhile isJsSpace).reverse.dropWhile isJsSpace).reverse⟩

/-- Does the pattern occur at the start of the text? -/
def startsWithL : List Char → List Char → Bool
  | [], _ => true
  | _ :: _, [] => false
  | p :: ps, t :: ts => p == t && startsWithL ps ts

/-- Does the pattern occur anywhere in the text (models
String.prototype.includes)? -/
def containsL (p : List Char) : List Char → Bool
  | [] => p.isEmpty
  | c :: ts => startsWithL p (c :: ts) || containsL p ts

/-- text.includes(pat) on strings. -/
def strIncludes (text pat : String) : Bool := containsL pat.data text.data

/-- The search predicate of renderTable: case-insensitive substring match on
name or roll number; an empty (falsy) search term matches everything. -/
def matchesSearch (searchTerm : String) (s : StudentR) : Bool :=
  searchTerm == "" ||
    strIncludes (lowerStr s.student.name) searchTerm ||
    strIncludes (lowerStr s.student.rollNo) searchTerm

/-- The category filter of renderTable: top keeps average >= 75, below keeps
average < 50, anything else keeps everything. -/
def matchesFilter (filt : String) (s : StudentR) : Bool :=
  if filt == "top" then decide ((75 : ℚ) ≤ s.average)
  else if filt == "below" then decide (s.average < 50)
  else true

/-- The comparator a.name.localeCompare(b.name) <= 0: localeCompare is an
external collaborator, passed in as cmp. -/
def nameLe (cmp : String → String → Int) (a b : StudentR) : Prop :=
  cmp a.student.name b.student.name ≤ 0

instance (cmp : String → String → Int) : DecidableRel (nameLe cmp) :=
  fun a b => inferInstanceAs (Decidable (cmp a.student.name b.student.name ≤ 0))

/-- The comparator a.rollNo.localeCompare(b.rollNo) <= 0. -/
def rollLe (cmp : String → String → Int) (a b : StudentR) : Prop :=
  cmp a.student.rollNo b.student.rollNo ≤ 0

instance (cmp : String → String → Int) : DecidableRel (rollLe cmp) :=
  fun a b => inferInstanceAs (Decidable (cmp a.student.rollNo b.student.rollNo ≤ 0))

/-- The query pipeline of renderTable: rank the roster, filter by the search
term (lower-cased and trimmed first), filter by the category, then sort by
the selected key (rank order is the incoming order). cmp stands for the
environment's localeCompare. -/
def renderTableList (students : List Student) (searchRaw filt sortKey : String)
    (cmp : String → String → Int) : List StudentR :=
  let searchTerm := jsTrim (lowerStr searchRaw)
  let r1 := calculateRanks students
  let r2 :=
    if searchTerm ≠ "" then
      r1.filter (fun s =>
        strIncludes (lowerStr s.student.name) searchTerm ||
        strIncludes (lowerStr s.student.rollNo) searchTerm)
    else r1
  let r3 :=
    if filt == "top" then r2.filter (fun s => decide ((75 : ℚ) ≤ s.average))
    else if filt == "below" then r2.filter (fun s => decide (s.average < 50))
    else r2
  if sortKey == "name" then List.insertionSort (nameLe cmp) r3
  else if sortKey == "roll" then List.insertionSort (rollLe cmp) r3
  else r3

/-- parseInt(string) with automatic radix: skip leading whitespace, optional
sign, then either 0x/0X followed by hex digits or a decimal digit run; the
longest valid digit run counts, anything after it is ignored; no digits means
NaN, modelled as none. -/
def isHexDigitCh (c : Char) : Bool :=
  c.isDigit || ('a' ≤ c && c ≤ 'f') || ('A' ≤ c && c ≤ 'F')

/-- Numeric value of a (hex) digit character. -/
def digitValue (c : Char) : Nat :=
  if c.isDigit then c.toNat - '0'.toNat
  else if 'a' ≤ c && c ≤ 'f' then c.toNat - 'a'.toNat + 10
  else if 'A' ≤ c && c ≤ 'F' then c.toNat - 'A'.toNat + 10
  else 0

/-- parseInt on a character list, after whitespace and sign handling. -/
def parseIntDigits (base : Nat) (isDig : Char → Bool) (cs : List Char) : Option Nat :=
  let digits := cs.takeWhile isDig
  if digits.isEmpty then none
  else some (digits.foldl (fun acc c => acc * base + digitValue c) 0)

/-- parseInt(string): returns none for NaN. -/
def parseIntJS (s : String) : Option Int :=
  let cs := s.data.dropWhile isJsSpace
  let (sign, cs2) : Int × List Char :=
    match cs with
    | '-' :: rest => (-1, rest)
    | '+' :: rest => (1, rest)
    | _ => (1, cs)
  match cs2 with
  | '0' :: 'x' :: rest => (parseIntDigits 16 isHexDigitCh rest).map (fun n => sign * n)
  | '0' :: 'X' :: rest => (parseIntDigits 16 isHexDigitCh rest).map (fun n => sign * n)
  | _ => (parseIntDigits 10 Char.isDigit cs2).map (fun n => sign * n)

/-- Overwrite marks[subject] of the first student whose id matches (the
in-place mutation students.find(...).marks[subject] = newValue). -/
def setMark (l : List Student) (id : Int) (subj : Subject) (v : Int) : List Student :=
  match l with
  | [] => []
  | s :: rest =>
    if s.id == id then
      { s with marks := fun x => if x == subj then v else s.marks x } :: rest
    else s :: setMark rest id subj v

/-- handleMarkEdit: parse the cell text as an integer; accessing the student
found by id throws a TypeError when the id is absent (students.find gives
undefined and both branches dereference it); a NaN or out-of-range value
reverts the cell and leaves the roster unchanged; otherwise the mark is
overwritten. -/
def handleMarkEdit (students : List Student) (id : Int) (subj : Subject)
    (raw : String) : Except String (List Student) :=
  let newValue := parseIntJS (jsTrim raw)
  match students.find? (fun s => s.id == id) with
  | none => Except.error "TypeError"
  | some _ =>
    match newValue with
    | none => Except.ok students
    | some v =>
      if v < 0 ∨ 100 < v then Except.ok students
      else Except.ok (setMark students id subj v)

/-- Winner index for one subject of the comparison chart:
marks[0] > marks[1] gives 0, marks[1] > marks[0] gives 1, a tie gives -1. -/
def winnerIdx (m1 m2 : Int) : Int :=
  if m1 > m2 then 0 else if m2 > m1 then 1 else -1

/-- Is the winner star drawn above the bar with this index? -/
def winnerMarker (m1 m2 : Int) (barIndex : Nat) : Bool :=
  winnerIdx m1 m2 == (barIndex : Int)

/-- The legend-building loop of drawComparisonChart: one entry per subject
with a winner (winner >= 0), in subject order. -/
def legendOf (s1 s2 : Student) : List Subject → List (String × String)
  | [] => []
  | subj :: rest =>
    let w := winnerIdx (s1.marks subj) (s2.marks subj)
    (if 0 ≤ w then [(SUBJECT_LABELS subj, if w == 0 then s1.name else s2.name)] else [])
      ++ legendOf s1 s2 rest

/-- The comparison legend for two students over all subjects. -/
def comparisonLegendItems (s1 s2 : Student) : List (String × String) :=
  legendOf s1 s2 SUBJECTS

/-- New id generation in addStudent:
students.length > 0 ? Math.max(...ids) + 1 : 1. -/
def newId (students : List Student) : Int :=
  match students.map (fun s => s.id) with
  | [] => 1
  | x :: xs => xs.foldl max x + 1

/-- The add-student entry point: the submit handler rejects a duplicate roll
number (case-sensitive string equality) and aborts; otherwise addStudent
appends a record with the generated id. The name and rollNo arguments stand
for the already-trimmed form values. -/
def requestAdd (students : List Student) (name rollNo : String)
    (marks : Subject → Int) : Option (List Student) :=
  if students.any (fun s => s.rollNo == rollNo) then none
  else some (students ++ [{ id := newId students, rollNo := rollNo, name := name,
                            marks := marks }])

/-- The initial roster (const studentsData in script.js). -/
def studentsData : List Student :=
  [⟨104, "104", "Ananya Singh",
      fun subj => match subj with
        | Subject.math => 95 | Subject.science => 92 | Subject.english => 88
        | Subject.history => 90 | Subject.computer => 98⟩,
   ⟨101, "101", "Aarav Sharma",
      fun subj => match subj with
        | Subject.math => 92 | Subject.science => 88 | Subject.english => 76
        | Subject.history => 85 | Subject.computer => 95⟩,
   ⟨103, "103", "Rohan Kumar",
      fun subj => match subj with
        | Subject.math => 65 | Subject.science => 58 | Subject.english => 70
        | Subject.history => 62 | Subject.computer => 68⟩,
   ⟨102, "102", "Priya Patel",
      fun subj => match subj with
        | Subject.math => 55 | Subject.science => 52 | Subject.english => 58
        | Subject.history => 54 | Subject.computer => 56⟩,
   ⟨105, "105", "Vikram Reddy",
      fun subj => match subj with
        | Subject.math => 45 | Subject.science => 52 | Subject.english => 48
        | Subject.history => 40 | Subject.computer => 55⟩]

/-- Comparison fixture: constant 80 marks. -/
def studentCmpA : Student := ⟨1, "A1", "Asha", fun _ => 80⟩

/-- Comparison fixture: 90 in science, 80 elsewhere (ties everywhere else). -/
def studentCmpB : Student :=
  ⟨2, "B1", "Badri", fun subj => if subj == Subject.science then 90 else 80⟩

/-- All-zero marks fixture. -/
def marksZero : Subject → Int := fun _ => 0

/-- The mutable page state: the roster, the checkbox selection
(selectedStudents, max 2) and the row-click selection
(selectedStudentForRadar, null modelled as none). -/
structure AppState where
  students : List Student
  selectedStudents : List Int
  selectedStudentForRadar : Option Int
deriving DecidableEq

/-- JS truthiness of the selectedStudentForRadar slot: null and 0 are falsy. -/
def isTruthy : Option Int → Bool
  | none => false
  | some n => n != 0

/-- The state effect of updateAllVisuals: when a radar student is selected
(truthy) but no longer exists, the radar selection is cleared; everything
else it does is rendering. -/
def updAllVisualsState (st : AppState) : AppState :=
  match st.selectedStudentForRadar with
  | some rid =>
    if rid != 0 then
      if st.students.any (fun s => s.id == rid) then st
      else { st with selectedStudentForRadar := none }
    else st
  | none => st

/-- The checkbox change handler: checking appends the id when fewer than 2
are selected and is rejected (checkbox reverted, state unchanged) otherwise;
unchecking removes the id. -/
def checkboxChange (st : AppState) (id : Int) (checked : Bool) : AppState :=
  if checked then
    if st.selectedStudents.length < 2 then
      { st with selectedStudents := st.selectedStudents ++ [id] }
    else st
  else { st with selectedStudents := st.selectedStudents.filter (fun x => x != id) }

/-- The row click handler (selectStudentForRadar): unconditional overwrite. -/
def rowClickState (st : AppState) (id : Int) : AppState :=
  { st with selectedStudentForRadar := some id }

/-- deleteStudent: drop the record, purge the id from the checkbox selection
when present, then run the updateAllVisuals cascade. -/
def deleteStudentState (st : AppState) (id : Int) : AppState :=
  let students2 := st.students.filter (fun s => s.id != id)
  let sel2 :=
    if id ∈ st.selectedStudents then st.selectedStudents.filter (fun x => x != id)
    else st.selectedStudents
  updAllVisualsState { st with students := students2, selectedStudents := sel2 }

/-- The submit handler plus addStudent at the state level. -/
def addStudentState (st : AppState) (name rollNo : String) (marks : Subject → Int) : AppState :=
  match requestAdd st.students name rollNo marks with
  | none => st
  | some l => updAllVisualsState { st with students := l }

/-- handleMarkEdit at the state level: a thrown TypeError aborts the cascade
with the state untouched. -/
def editMarkState (st : AppState) (id : Int) (subj : Subject) (raw : String) : AppState :=
  match handleMarkEdit st.students id subj raw with
  | Except.error _ => st
  | Except.ok l => updAllVisualsState { st with students := l }

/-- The user operations that touch roster or selection state. -/
inductive Op
  | check (id : Int)
  | uncheck (id : Int)
  | rowClick (id : Int)
  | add (name rollNo : String) (marks : Subject → Int)
  | delete (id : Int)
  | editMark (id : Int) (subj : Subject) (raw : String)

/-- One step of the state machine. -/
def step (st : AppState) : Op → AppState
  | Op.check id => checkboxChange st id true
  | Op.uncheck id => checkboxChange st id false
  | Op.rowClick id => rowClickState st id
  | Op.add name rollNo marks => addStudentState st name rollNo marks
  | Op.delete id => deleteStudentState st id
  | Op.editMark id subj raw => editMarkState st id subj raw

/-- Events that the rendered page can actually deliver: checkboxes and rows
exist only for rendered (current) students, and a change event to checked
fires only on an unchecked (unselected) checkbox. -/
def legitimateOp (st : AppState) : Op → Prop
  | Op.check id => (∃ s ∈ st.students, s.id = id) ∧ id ∉ st.selectedStudents
  | Op.rowClick id => ∃ s ∈ st.students, s.id = id
  | _ => True

/-- The selection-state invariant: at most two checkbox selections, both
selection slots only hold ids of current students, ids are positive (they
start at 101 and addStudent generates max + 1, never 0), and roster ids are
distinct. -/
def SelInv (st : AppState) : Prop :=
  st.selectedStudents.length ≤ 2 ∧
  (∀ id ∈ st.selectedStudents, ∃ s ∈ st.students, s.id = id) ∧
  (∀ rid, st.selectedStudentForRadar = some rid → ∃ s ∈ st.students, s.id = rid) ∧
  (∀ s ∈ st.students, 1 ≤ s.id) ∧
  (st.students.map (fun s => s.id)).Nodup

/-- The insight payload computed by getInsight. -/
structure Insight where
  status : String
  statusClass : String
  strengths : List String
  weaknesses : List String
  average : ℚ
deriving DecidableEq

/-- The strengths/weaknesses loop of getInsight over the subject list:
mark >= 75 is a strength, mark < 50 a weakness, the band between neither. -/
def strengthsWeaknesses (marks : Subject → Int) : List Subject → List String × List String
  | [] => ([], [])
  | subj :: rest =>
    let sw := strengthsWeaknesses marks rest
    if marks subj ≥ 75 then (SUBJECT_LABELS subj :: sw.1, sw.2)
    else if marks subj < 50 then (sw.1, SUBJECT_LABELS subj :: sw.2)
    else sw

/-- getInsight: status from the average (>= 75 Excellent, >= 50 Average,
else Needs Improvement) plus the strengths and weaknesses lists. -/
def getInsight (student : Student) : Insight :=
  let average := calculateAverage student.marks
  let sw := strengthsWeaknesses student.marks SUBJECTS
  if average ≥ 75 then ⟨"Excellent", "insight-excellent", sw.1, sw.2, average⟩
  else if average ≥ 50 then ⟨"Average", "insight-average", sw.1, sw.2, average⟩
  else ⟨"Needs Improvement", "insight-needs-improvement", sw.1, sw.2, average⟩

/-- What the insight panel shows. -/
inductive Panel
  | multiPlaceholder
  | defaultPlaceholder
  | shown (name : String) (insight : Insight)
deriving DecidableEq

/-- showInsight: a missing id leaves the panel as it was (early return). -/
def showInsightPanel (students : List Student) (id : Int) (prev : Panel) : Panel :=
  match students.find? (fun s => s.id == id) with
  | none => prev
  | some s => Panel.shown s.name (getInsight s)

/-- restoreInsightState: more than one checkbox selection shows the multi
placeholder; exactly one shows that student; otherwise a truthy radar
selection shows that student; otherwise the default placeholder. -/
def restoreInsightState (st : AppState) (prev : Panel) : Panel :=
  if st.selectedStudents.length > 1 then Panel.multiPlaceholder
  else if st.selectedStudents.length = 1 then
    showInsightPanel st.students st.selectedStudents.headI prev
  else if isTruthy st.selectedStudentForRadar then
    showInsightPanel st.students (st.selectedStudentForRadar.getD 0) prev
  else Panel.defaultPlaceholder

/-- A trivial stand-in for the environment's localeCompare. -/
def cmp0 : String → String → Int := fun _ _ => 0

/-- The sample student with roll number 104. -/
def stu104 : Student :=
  ⟨104, "104", "Ananya Singh",
    fun subj => match subj with
      | Subject.math => 95 | Subject.science => 92 | Subject.english => 88
      | Subject.history => 90 | Subject.computer => 98⟩

/-- C8: calculateAverage equals the arithmetic mean of the five marks,
rounded to one decimal place with round-half-away-from-zero at the tenths
digit; since five integer marks always give a mean whose tenfold is an
integer, this also equals the exact mean. -/
theorem calculateAverage_rounding (marks : Subject → Int)
    (h : ∀ subj, 0 ≤ marks subj ∧ marks subj ≤ 100) :
    calculateAverage marks = (specRoundHalfAwayFromZero (specMean marks * 10) : ℚ) / 10 ∧
    calculateAverage marks = specMean marks := by
  have h1 := (h Subject.math).1
  have h2 := (h Subject.science).1
  have h3 := (h Subject.english).1
  have h4 := (h Subject.history).1
  have h5 := (h Subject.computer).1
  have hsum : 0 ≤ sumMarks marks := by
    simp only [sumMarks, SUBJECTS, List.map_cons, List.map_nil, List.sum_cons, List.sum_nil]
    omega
  have hlen : ((SUBJECTS.length : ℚ)) = 5 := by norm_num [SUBJECTS]
  have key : ((sumMarks marks : ℚ) / (SUBJECTS.length : ℚ)) * 10 = ((2 * sumMarks marks : Int) : ℚ) := by
    rw [hlen]
    push_cast
    ring
  have keySpec : specMean marks * 10 = ((2 * sumMarks marks : Int) : ℚ) := by
    unfold specMean
    push_cast
    ring
  have hfloor : ⌊((2 * sumMarks marks : Int) : ℚ) + 1 / 2⌋ = 2 * sumMarks marks := by
    rw [Int.floor_int_add]
    norm_num
  have havg : calculateAverage marks = ((2 * sumMarks marks : Int) : ℚ) / 10 := by
    unfold calculateAverage jsRound
    rw [key, hfloor]
  constructor
  · rw [havg, keySpec]
    unfold specRoundHalfAwayFromZero
    rw [if_pos]
    · rw [hfloor]
    · have hsumQ : (0 : ℚ) ≤ (sumMarks marks : ℚ) := by exact_mod_cast hsum
      push_cast
      linarith
  · rw [havg]
    unfold specMean
    push_cast
    ring

/-- Witness for C8: the two concrete examples from the spec. -/
theorem calculateAverage_rounding_witness :
    calculateAverage marksAll90 = 90 ∧ calculateAverage marksExample = 926 / 10 := by
  constructor
  · have h := (calculateAverage_rounding marksAll90 (by intro subj; cases subj <;> simp [marksAll90])).2
    rw [h]
    norm_num [specMean, sumMarks, SUBJECTS, marksAll90]
  · have h := (calculateAverage_rounding marksExample (by intro subj; cases subj <;> simp [marksExample])).2
    rw [h]
    norm_num [specMean, sumMarks, SUBJECTS, marksExample]

/-- Averages are preserved, position by position, by the rank-assignment loop. -/
theorem assignRanksAux_map_average :
    ∀ (l : List StudentA) (prev : ℚ) (i k : Nat),
      (assignRanksAux prev i k l).map StudentR.average = l.map StudentA.average := by
  intro l
  induction l with
  | nil => intro prev i k; rfl
  | cons s rest ih =>
    intro prev i k
    simp [assignRanksAux, ih]

/-- Students are preserved, position by position, by the rank-assignment loop. -/
theorem assignRanksAux_map_student :
    ∀ (l : List StudentA) (prev : ℚ) (i k : Nat),
      (assignRanksAux prev i k l).map StudentR.student = l.map StudentA.student := by
  intro l
  induction l with
  | nil => intro prev i k; rfl
  | cons s rest ih =>
    intro prev i k
    simp [assignRanksAux, ih]

/-- Every average occurring in the output of the loop occurs in its input. -/
theorem assignRanksAux_average_mem (prev : ℚ) (i k : Nat) (l : List StudentA) (r : StudentR)
    (hr : r ∈ assignRanksAux prev i k l) : ∃ t ∈ l, r.average = t.average := by
  have hmem : r.average ∈ (assignRanksAux prev i k l).map StudentR.average :=
    List.mem_map_of_mem StudentR.average hr
  rw [assignRanksAux_map_average] at hmem
  obtain ⟨t, ht, hte⟩ := List.mem_map.mp hmem
  exact ⟨t, ht, hte.symm⟩

/-- Counting strictly higher averages over a cons cell. -/
theorem countHigher_cons (s : StudentA) (l : List StudentA) (a : ℚ) :
    countHigher (s :: l) a = (if a < s.average then 1 else 0) + countHigher l a := by
  unfold countHigher
  by_cases h : a < s.average
  · simp [List.filter_cons, h]
    omega
  · simp [List.filter_cons, h]

/-- No entry counts as strictly higher when all averages are at most a. -/
theorem countHigher_eq_zero (l : List StudentA) (a : ℚ) (h : ∀ t ∈ l, t.average ≤ a) :
    countHigher l a = 0 := by
  induction l with
  | nil => rfl
  | cons s rest ih =>
    rw [countHigher_cons]
    rw [if_neg (not_lt.mpr (h s (List.mem_cons_self s rest)))]
    simp [ih (fun t ht => h t (List.mem_cons_of_mem s ht))]

/-- Rank formula for the loop on a descending-sorted suffix: an entry whose
average still equals prev keeps rank k; any strictly lower entry gets one plus
its index, i.e. i + 1 plus the number of strictly higher entries in the
suffix. -/
theorem assignRanksAux_rank :
    ∀ (l : List StudentA) (prev : ℚ) (i k : Nat),
      l.Pairwise avgGe → (∀ s ∈ l, s.average ≤ prev) →
      ∀ r ∈ assignRanksAux prev i k l,
        r.rank = if r.average = prev then k else i + 1 + countHigher l r.average := by
  intro l
  induction l with
  | nil =>
    intro prev i k _ _ r hr
    simp [assignRanksAux] at hr
  | cons s rest ih =>
    intro prev i k hp hle r hr
    rw [List.pairwise_cons] at hp
    obtain ⟨hall, hp2⟩ := hp
    have hall2 : ∀ t ∈ rest, t.average ≤ s.average := hall
    have hsp : s.average ≤ prev := hle s (List.mem_cons_self s rest)
    rcases lt_or_eq_of_le hsp with hlt | heq
    · have hr2 : r = ⟨s.student, s.average, i + 1⟩ ∨
          r ∈ assignRanksAux s.average (i + 1) (i + 1) rest := by
        simpa [assignRanksAux, hlt] using hr
      rcases hr2 with rfl | htail
      · show i + 1 = if s.average = prev then k else i + 1 + countHigher (s :: rest) s.average
        rw [if_neg (ne_of_lt hlt)]
        rw [countHigher_eq_zero (s :: rest) s.average ?hz]
        case hz =>
          intro t ht
          rcases List.mem_cons.mp ht with rfl | ht2
          · exact le_refl _
          · exact hall2 t ht2
      · have ih2 := ih s.average (i + 1) (i + 1) hp2 hall2 r htail
        obtain ⟨t, ht, hte⟩ := assignRanksAux_average_mem s.average (i + 1) (i + 1) rest r htail
        have hrs : r.average ≤ s.average := by rw [hte]; exact hall2 t ht
        by_cases hre : r.average = s.average
        · rw [if_pos hre] at ih2
          have hne : r.average ≠ prev := by rw [hre]; exact ne_of_lt hlt
          rw [ih2, if_neg hne]
          rw [countHigher_eq_zero (s :: rest) r.average ?hz2]
          case hz2 =>
            intro u hu
            rcases List.mem_cons.mp hu with rfl | hu2
            · rw [hre]
            · rw [hre]; exact hall2 u hu2
        · have hlt2 : r.average < s.average := lt_of_le_of_ne hrs hre
          rw [if_neg hre] at ih2
          have hne : r.average ≠ prev := ne_of_lt (lt_of_lt_of_le hlt2 hsp)
          rw [ih2, if_neg hne, countHigher_cons, if_pos hlt2]
          omega
    · have hnlt : ¬ s.average < prev := by rw [heq]; exact lt_irrefl _
      have hr2 : r = ⟨s.student, s.average, k⟩ ∨
          r ∈ assignRanksAux s.average (i + 1) k rest := by
        simpa [assignRanksAux, hnlt] using hr
      rcases hr2 with rfl | htail
      · show k = if s.average = prev then k else i + 1 + countHigher (s :: rest) s.average
        rw [if_pos heq]
      · have ih2 := ih s.average (i + 1) k hp2 hall2 r htail
        obtain ⟨t, ht, hte⟩ := assignRanksAux_average_mem s.average (i + 1) k rest r htail
        have hrs : r.average ≤ s.average := by rw [hte]; exact hall2 t ht
        by_cases hre : r.average = s.average
        · rw [if_pos hre] at ih2
          have heq2 : r.average = prev := by rw [hre, heq]
          rw [ih2, if_pos heq2]
        · have hlt2 : r.average < s.average := lt_of_le_of_ne hrs hre
          rw [if_neg hre] at ih2
          have hne : r.average ≠ prev := by rw [← heq]; exact ne_of_lt hlt2
          rw [ih2, if_neg hne, countHigher_cons, if_pos hlt2]
          omega

/-- Rank formula for assignRanks on a descending-sorted list: one plus the
number of strictly higher averages. -/
theorem assignRanks_rank (l : List StudentA) (hp : l.Pairwise avgGe) :
    ∀ r ∈ assignRanks l, r.rank = 1 + countHigher l r.average := by
  cases l with
  | nil =>
    intro r hr
    simp [assignRanks] at hr
  | cons s rest =>
    intro r hr
    rw [List.pairwise_cons] at hp
    obtain ⟨hall, hp2⟩ := hp
    have hall2 : ∀ t ∈ rest, t.average ≤ s.average := hall
    have hr2 : r = ⟨s.student, s.average, 1⟩ ∨ r ∈ assignRanksAux s.average 1 1 rest := by
      simpa [assignRanks] using hr
    rcases hr2 with rfl | htail
    · show 1 = 1 + countHigher (s :: rest) s.average
      rw [countHigher_eq_zero (s :: rest) s.average ?hz]
      case hz =>
        intro t ht
        rcases List.mem_cons.mp ht with rfl | ht2
        · exact le_refl _
        · exact hall2 t ht2
    · have ih2 := assignRanksAux_rank rest s.average 1 1 hp2 hall2 r htail
      obtain ⟨t, ht, hte⟩ := assignRanksAux_average_mem s.average 1 1 rest r htail
      have hrs : r.average ≤ s.average := by rw [hte]; exact hall2 t ht
      by_cases hre : r.average = s.average
      · rw [if_pos hre] at ih2
        rw [ih2]
        rw [countHigher_eq_zero (s :: rest) r.average ?hz2]
        case hz2 =>
          intro u hu
          rcases List.mem_cons.mp hu with rfl | hu2
          · rw [hre]
          · rw [hre]; exact hall2 u hu2
      · have hlt2 : r.average < s.average := lt_of_le_of_ne hrs hre
        rw [if_neg hre] at ih2
        rw [ih2, countHigher_cons, if_pos hlt2]
        omega

/-- calculateRanks unfolded to its three stages. -/
theorem calculateRanks_eq (students : List Student) :
    calculateRanks students
      = assignRanks (List.insertionSort avgGe
          (students.map (fun s => StudentA.mk s (calculateAverage s.marks)))) := rfl

/-- countHigher is invariant under permutation. -/
theorem countHigher_perm {l1 l2 : List StudentA} (h : l1.Perm l2) (a : ℚ) :
    countHigher l1 a = countHigher l2 a := by
  unfold countHigher
  exact (h.filter _).length_eq

/-- countHigher over the annotated roster counts roster members with strictly
higher computed average. -/
theorem countHigher_map (students : List Student) (a : ℚ) :
    countHigher (students.map (fun s => StudentA.mk s (calculateAverage s.marks))) a
      = (students.filter (fun s => decide (a < calculateAverage s.marks))).length := by
  induction students with
  | nil => rfl
  | cons s rest ih =>
    simp only [List.map_cons, countHigher_cons, List.filter_cons]
    by_cases h : a < calculateAverage s.marks
    · simp [h, ih]
      omega
    · simp [h, ih]

/-- Students are preserved, position by position, by assignRanks. -/
theorem assignRanks_map_student (l : List StudentA) :
    (assignRanks l).map StudentR.student = l.map StudentA.student := by
  cases l with
  | nil => rfl
  | cons s rest => simp [assignRanks, assignRanksAux_map_student]

/-- Averages are preserved, position by position, by assignRanks. -/
theorem assignRanks_map_average (l : List StudentA) :
    (assignRanks l).map StudentR.average = l.map StudentA.average := by
  cases l with
  | nil => rfl
  | cons s rest => simp [assignRanks, assignRanksAux_map_average]

/-- Mapping the student component over the annotated roster gives back the
roster. -/
theorem map_student_map_mk (students : List Student) :
    (students.map (fun s => StudentA.mk s (calculateAverage s.marks))).map
      StudentA.student = students := by
  induction students with
  | nil => rfl
  | cons x xs ih => simp [ih]

/-- C1: calculateRanks is a permutation of the roster, is ordered by average
descending, and assigns dense competition ranks: every entry's rank is 1 plus
the number of roster members whose average is strictly higher (so equal
averages share a rank). -/
theorem calculateRanks_dense_competition (students : List Student) :
    ((calculateRanks students).map StudentR.student).Perm students ∧
    (calculateRanks students).Pairwise (fun a b => b.average ≤ a.average) ∧
    ∀ r ∈ calculateRanks students,
      r.rank = 1 + (students.filter (fun s => decide (r.average < calculateAverage s.marks))).length := by
  have hperm : (List.insertionSort avgGe
      (students.map (fun s => StudentA.mk s (calculateAverage s.marks)))).Perm
      (students.map (fun s => StudentA.mk s (calculateAverage s.marks))) :=
    List.perm_insertionSort avgGe _
  have hsorted : (List.insertionSort avgGe
      (students.map (fun s => StudentA.mk s (calculateAverage s.marks)))).Pairwise avgGe :=
    List.sorted_insertionSort avgGe _
  refine ⟨?_, ?_, ?_⟩
  · rw [calculateRanks_eq, assignRanks_map_student]
    have h2 := hperm.map StudentA.student
    rw [map_student_map_mk] at h2
    exact h2
  · have hpw : ((calculateRanks students).map StudentR.average).Pairwise
        (fun x y : ℚ => y ≤ x) := by
      rw [calculateRanks_eq, assignRanks_map_average, List.pairwise_map]
      exact hsorted
    rw [List.pairwise_map] at hpw
    exact hpw
  · intro r hr
    rw [calculateRanks_eq] at hr
    have hrank := assignRanks_rank _ hsorted r hr
    rw [hrank, countHigher_perm hperm, countHigher_map]

/-- calculateAverage always equals the exact mean: the tenfold of the mean of
five integers is the integer 2 * sum, so the rounding step is the identity. -/
theorem calculateAverage_eq_mean (marks : Subject → Int) :
    calculateAverage marks = (sumMarks marks : ℚ) / 5 := by
  have hlen : ((SUBJECTS.length : ℚ)) = 5 := by norm_num [SUBJECTS]
  have key : ((sumMarks marks : ℚ) / (SUBJECTS.length : ℚ)) * 10
      = ((2 * sumMarks marks : Int) : ℚ) := by
    rw [hlen]
    push_cast
    ring
  have hfloor : ⌊((2 * sumMarks marks : Int) : ℚ) + 1 / 2⌋ = 2 * sumMarks marks := by
    rw [Int.floor_int_add]
    norm_num
  unfold calculateAverage jsRound
  rw [key, hfloor]
  push_cast
  ring

/-- calculateAverage of constant marks v is v. -/
theorem calculateAverage_const (v : Int) : calculateAverage (fun _ => v) = (v : ℚ) := by
  rw [calculateAverage_eq_mean]
  simp [sumMarks, SUBJECTS]
  ring

/-- Concrete evaluation of calculateRanks on the tie roster. -/
theorem calculateRanks_rosterTie :
    calculateRanks rosterTie
      = [rankedTieHead, ⟨⟨2, "2", "B", fun _ => 70⟩, 70, 1⟩,
         ⟨⟨3, "3", "C", fun _ => 60⟩, 60, 3⟩] := by
  rw [calculateRanks_eq]
  have h70 : calculateAverage (fun _ => (70 : Int)) = 70 := calculateAverage_const 70
  have h60 : calculateAverage (fun _ => (60 : Int)) = 60 := calculateAverage_const 60
  norm_num [rosterTie, rankedTieHead, h70, h60, List.insertionSort, List.orderedInsert,
    avgGe, assignRanks, assignRanksAux]

/-- Witness for C1: averages 70, 70, 60 give ranks 1, 1, 3 and the head entry
satisfies the dense-rank formula. -/
theorem calculateRanks_dense_competition_witness :
    ((calculateRanks rosterTie).map (fun r => r.rank)) = [1, 1, 3] ∧
    rankedTieHead.rank
      = 1 + (rosterTie.filter
          (fun s => decide (rankedTieHead.average < calculateAverage s.marks))).length := by
  constructor
  · rw [calculateRanks_rosterTie]
    rfl
  · refine (calculateRanks_dense_competition rosterTie).2.2 rankedTieHead ?_
    rw [calculateRanks_rosterTie]
    exact List.mem_cons_self _ _

/-- The seed of a left max fold is a lower bound of the result. -/
theorem le_foldl_max : ∀ (xs : List Int) (x : Int), x ≤ xs.foldl max x := by
  intro xs
  induction xs with
  | nil => intro x; exact le_refl x
  | cons z zs ih => intro x; exact le_trans (le_max_left x z) (ih (max x z))

/-- Every argument of a left max fold is a lower bound of the result. -/
theorem foldl_max_le : ∀ (xs : List Int) (x y : Int), (y = x ∨ y ∈ xs) → y ≤ xs.foldl max x := by
  intro xs
  induction xs with
  | nil =>
    intro x y h
    rcases h with rfl | h
    · exact le_refl _
    · simp at h
  | cons z zs ih =>
    intro x y h
    show y ≤ List.foldl max (max x z) zs
    rcases h with rfl | h2
    · exact le_trans (le_max_left y z) (le_foldl_max zs (max y z))
    · rcases List.mem_cons.mp h2 with rfl | h3
      · exact le_trans (le_max_right x y) (le_foldl_max zs (max x y))
      · exact ih (max x z) y (Or.inr h3)

/-- A left max fold yields its seed or one of its arguments. -/
theorem foldl_max_mem : ∀ (xs : List Int) (x : Int), xs.foldl max x = x ∨ xs.foldl max x ∈ xs := by
  intro xs
  induction xs with
  | nil => intro x; exact Or.inl rfl
  | cons z zs ih =>
    intro x
    show List.foldl max (max x z) zs = x ∨ List.foldl max (max x z) zs ∈ z :: zs
    rcases ih (max x z) with h | h
    · rcases max_choice x z with hx | hz
      · rw [hx] at h ⊢
        exact Or.inl h
      · rw [hz] at h ⊢
        exact Or.inr (by rw [h]; exact List.mem_cons_self _ _)
    · exact Or.inr (List.mem_cons_of_mem z h)

/-- The generated id is strictly above every existing id. -/
theorem newId_gt (students : List Student) : ∀ s ∈ students, s.id < newId students := by
  cases students with
  | nil => intro s hs; simp at hs
  | cons a rest =>
    intro s hs
    show s.id < (rest.map (fun t => t.id)).foldl max a.id + 1
    have hle : s.id ≤ (rest.map (fun t => t.id)).foldl max a.id := by
      apply foldl_max_le
      rcases List.mem_cons.mp hs with rfl | h2
      · exact Or.inl rfl
      · exact Or.inr (List.mem_map_of_mem _ h2)
    omega

/-- On a nonempty roster the generated id is some existing id plus one. -/
theorem newId_succ_mem (students : List Student) (h : students ≠ []) :
    ∃ s ∈ students, newId students = s.id + 1 := by
  cases students with
  | nil => exact absurd rfl h
  | cons a rest =>
    rcases foldl_max_mem (rest.map (fun t => t.id)) a.id with hm | hm
    · refine ⟨a, List.mem_cons_self a rest, ?_⟩
      show (rest.map (fun t => t.id)).foldl max a.id + 1 = a.id + 1
      rw [hm]
    · obtain ⟨s, hs, hse⟩ := List.mem_map.mp hm
      refine ⟨s, List.mem_cons_of_mem a hs, ?_⟩
      show (rest.map (fun t => t.id)).foldl max a.id + 1 = s.id + 1
      rw [← hse]

/-- The duplicate test of the submit handler as an existence statement. -/
theorem any_rollNo_eq (students : List Student) (rollNo : String) :
    students.any (fun s => s.rollNo == rollNo) = true ↔ ∃ s ∈ students, s.rollNo = rollNo := by
  rw [List.any_eq_true]
  simp

/-- C5: requestAdd fails exactly when the requested roll number equals (string
equality, hence case-sensitive) the roll number of an existing student; on
success it appends one student whose id is above every existing id and equals
max existing id plus one (or 1 on an empty roster). -/
theorem requestAdd_duplicate (students : List Student) (name rollNo : String)
    (marks : Subject → Int) :
    (requestAdd students name rollNo marks = none ↔ ∃ s ∈ students, s.rollNo = rollNo) ∧
    (∀ l, requestAdd students name rollNo marks = some l →
        l.length = students.length + 1 ∧
        l = students ++ [Student.mk (newId students) rollNo name marks] ∧
        (students = [] → newId students = 1) ∧
        (∀ s ∈ students, s.id < newId students) ∧
        (students ≠ [] → ∃ s ∈ students, newId students = s.id + 1)) := by
  by_cases h : students.any (fun s => s.rollNo == rollNo) = true
  · refine ⟨?_, ?_⟩
    · simp only [requestAdd, if_pos h]
      simp [(any_rollNo_eq students rollNo).mp h]
    · intro l hl
      simp only [requestAdd, if_pos h] at hl
      cases hl
  · refine ⟨?_, ?_⟩
    · simp only [requestAdd, if_neg h]
      constructor
      · intro h2
        cases h2
      · intro hex
        exact absurd ((any_rollNo_eq students rollNo).mpr hex) h
    · intro l hl
      simp only [requestAdd, if_neg h] at hl
      have hl2 := Option.some.inj hl
      subst hl2
      refine ⟨by simp, rfl, ?_, newId_gt students, newId_succ_mem students⟩
      intro he
      rw [he]
      rfl

/-- Witness for C5: adding roll number 104 to the sample roster fails; adding
a fresh roll number grows the roster by one. -/
theorem requestAdd_duplicate_witness :
    requestAdd studentsData "Dup" "104" marksZero = none ∧
    (studentsData ++ [Student.mk (newId studentsData) "200" "NewKid" marksZero]).length
      = studentsData.length + 1 := by
  constructor
  · exact (requestAdd_duplicate studentsData "Dup" "104" marksZero).1.mpr (by decide)
  · exact ((requestAdd_duplicate studentsData "NewKid" "200" marksZero).2 _ rfl).1

/-- C10: requestAdd checks only the roll number: any marks mapping, in or out
of the range 0..100, is appended unchanged. -/
theorem addStudent_no_marks_validation (students : List Student) (name rollNo : String)
    (marks : Subject → Int) (h : ¬ ∃ s ∈ students, s.rollNo = rollNo) :
    requestAdd students name rollNo marks
      = some (students ++ [Student.mk (newId students) rollNo name marks]) := by
  have hb : ¬ students.any (fun s => s.rollNo == rollNo) = true := by
    intro hx
    exact h ((any_rollNo_eq students rollNo).mp hx)
  simp only [requestAdd, if_neg hb]

/-- Witness for C10: marks 999 on every subject pass through requestAdd
untouched. -/
theorem addStudent_no_marks_validation_witness :
    requestAdd studentsData "Zed" "999" (fun _ => 999)
      = some (studentsData ++ [Student.mk (newId studentsData) "999" "Zed" (fun _ => 999)]) :=
  addStudent_no_marks_validation studentsData "Zed" "999" (fun _ => 999) (by decide)

/-- setMark rewrites exactly the matched subject of the first student whose
id matches, and nothing else. -/
theorem setMark_decomp (l : List Student) (id : Int) (subj : Subject) (v : Int)
    (h : ∃ s ∈ l, s.id = id) :
    ∃ pre s post, l = pre ++ s :: post ∧ s.id = id ∧ (∀ t ∈ pre, t.id ≠ id) ∧
      setMark l id subj v
        = pre ++ { s with marks := fun x => if x == subj then v else s.marks x } :: post := by
  induction l with
  | nil =>
    obtain ⟨s, hs, _⟩ := h
    simp at hs
  | cons a rest ih =>
    by_cases ha : a.id = id
    · refine ⟨[], a, rest, rfl, ha, by simp, ?_⟩
      simp [setMark, ha]
    · obtain ⟨s, hs, hside⟩ := h
      rcases List.mem_cons.mp hs with rfl | hs2
      · exact absurd hside ha
      · obtain ⟨pre, s2, post, hl, hid, hpre, hset⟩ := ih ⟨s, hs2, hside⟩
        refine ⟨a :: pre, s2, post, by rw [List.cons_append, ← hl], hid, ?_, ?_⟩
        · intro t ht
          rcases List.mem_cons.mp ht with rfl | ht2
          · exact ha
          · exact hpre t ht2
        · simp [setMark, ha, hset]

/-- C6: handleMarkEdit on a present id accepts exactly the raw values that
parse to an integer in 0..100; a NaN parse or an out-of-range value leaves
the roster unchanged, and an accepted value overwrites exactly
marks[subject] of the matching student. -/
theorem handleMarkEdit_validation (students : List Student) (id : Int) (subj : Subject)
    (raw : String) (hpresent : ∃ s ∈ students, s.id = id) :
    (parseIntJS (jsTrim raw) = none → handleMarkEdit students id subj raw = Except.ok students) ∧
    (∀ v, parseIntJS (jsTrim raw) = some v → (v < 0 ∨ 100 < v) →
        handleMarkEdit students id subj raw = Except.ok students) ∧
    (∀ v, parseIntJS (jsTrim raw) = some v → 0 ≤ v → v ≤ 100 →
        handleMarkEdit students id subj raw = Except.ok (setMark students id subj v) ∧
        ∃ pre s post, students = pre ++ s :: post ∧ s.id = id ∧ (∀ t ∈ pre, t.id ≠ id) ∧
          setMark students id subj v
            = pre ++ { s with marks := fun x => if x == subj then v else s.marks x } :: post) := by
  obtain ⟨s0, hs0, hid0⟩ := hpresent
  have hfind : (students.find? (fun s => s.id == id)).isSome := by
    rw [List.find?_isSome]
    exact ⟨s0, hs0, by simp [hid0]⟩
  obtain ⟨sf, hsf⟩ := Option.isSome_iff_exists.mp hfind
  refine ⟨?_, ?_, ?_⟩
  · intro hnone
    simp only [handleMarkEdit, hsf, hnone]
  · intro v hv hrange
    simp only [handleMarkEdit, hsf, hv]
    rw [if_pos hrange]
  · intro v hv h0 h100
    refine ⟨?_, setMark_decomp students id subj v ⟨s0, hs0, hid0⟩⟩
    simp only [handleMarkEdit, hsf, hv]
    rw [if_neg (by omega)]

/-- Witness for C6: on the sample roster, editing math of id 104 with "87"
overwrites the mark, while "150" and "abc" are rejected without mutation. -/
theorem handleMarkEdit_validation_witness :
    handleMarkEdit studentsData 104 Subject.math "87"
        = Except.ok (setMark studentsData 104 Subject.math 87) ∧
    handleMarkEdit studentsData 104 Subject.math "150" = Except.ok studentsData ∧
    handleMarkEdit studentsData 104 Subject.math "abc" = Except.ok studentsData := by
  refine ⟨?_, ?_, ?_⟩
  · exact ((handleMarkEdit_validation studentsData 104 Subject.math "87"
      (by decide)).2.2 87 rfl (by decide) (by decide)).1
  · exact (handleMarkEdit_validation studentsData 104 Subject.math "150"
      (by decide)).2.1 150 rfl (by decide)
  · exact (handleMarkEdit_validation studentsData 104 Subject.math "abc"
      (by decide)).1 rfl

/-- The legend loop lists exactly the non-tied subjects, each with the name
of the student holding the strictly higher mark. -/
theorem legendOf_eq (s1 s2 : Student) (l : List Subject) :
    legendOf s1 s2 l
      = (l.filter (fun subj => decide (s1.marks subj ≠ s2.marks subj))).map
          (fun subj => (SUBJECT_LABELS subj,
            if s2.marks subj < s1.marks subj then s1.name else s2.name)) := by
  induction l with
  | nil => rfl
  | cons subj rest ih =>
    rcases lt_trichotomy (s1.marks subj) (s2.marks subj) with h | h | h
    · have hw : winnerIdx (s1.marks subj) (s2.marks subj) = 1 := by
        unfold winnerIdx
        rw [if_neg (by omega), if_pos (by omega)]
      have hne : s1.marks subj ≠ s2.marks subj := ne_of_lt h
      have hngt : ¬ s2.marks subj < s1.marks subj := by omega
      simp only [legendOf, hw]
      norm_num [List.filter_cons, hne, hngt, ih, beq_iff_eq]
    · have hw : winnerIdx (s1.marks subj) (s2.marks subj) = -1 := by
        unfold winnerIdx
        rw [if_neg (by omega), if_neg (by omega)]
      simp only [legendOf, hw]
      norm_num [List.filter_cons, h, ih]
    · have hw : winnerIdx (s1.marks subj) (s2.marks subj) = 0 := by
        unfold winnerIdx
        rw [if_pos (by omega)]
      have hne : s1.marks subj ≠ s2.marks subj := (ne_of_lt h).symm
      have hgt : s2.marks subj < s1.marks subj := h
      simp only [legendOf, hw]
      norm_num [List.filter_cons, hne, hgt, ih, beq_iff_eq]

/-- C7: per subject the winner is the strictly higher mark (0 for the first
student, 1 for the second, -1 and no star on a tie), and the legend contains
exactly the non-tied subjects mapped to the winning student's name. -/
theorem comparison_winner_legend (s1 s2 : Student) :
    comparisonLegendItems s1 s2
      = (SUBJECTS.filter (fun subj => decide (s1.marks subj ≠ s2.marks subj))).map
          (fun subj => (SUBJECT_LABELS subj,
            if s2.marks subj < s1.marks subj then s1.name else s2.name)) ∧
    (∀ subj : Subject, s1.marks subj = s2.marks subj →
        winnerIdx (s1.marks subj) (s2.marks subj) = -1 ∧
        winnerMarker (s1.marks subj) (s2.marks subj) 0 = false ∧
        winnerMarker (s1.marks subj) (s2.marks subj) 1 = false) ∧
    (∀ subj : Subject, s2.marks subj < s1.marks subj →
        winnerIdx (s1.marks subj) (s2.marks subj) = 0) ∧
    (∀ subj : Subject, s1.marks subj < s2.marks subj →
        winnerIdx (s1.marks subj) (s2.marks subj) = 1) := by
  refine ⟨legendOf_eq s1 s2 SUBJECTS, ?_, ?_, ?_⟩
  · intro subj h
    have hw : winnerIdx (s1.marks subj) (s2.marks subj) = -1 := by
      unfold winnerIdx
      rw [if_neg (by omega), if_neg (by omega)]
    refine ⟨hw, ?_, ?_⟩
    · unfold winnerMarker
      rw [hw]
      decide
    · unfold winnerMarker
      rw [hw]
      decide
  · intro subj h
    unfold winnerIdx
    rw [if_pos (by omega)]
  · intro subj h
    unfold winnerIdx
    rw [if_neg (by omega), if_pos (by omega)]

/-- Witness for C7: equal math marks give no winner and no star; the only
non-tied subject (science) yields the single legend entry with the winning
name. -/
theorem comparison_winner_legend_witness :
    winnerIdx (studentCmpA.marks Subject.math) (studentCmpB.marks Subject.math) = -1 ∧
    winnerMarker (studentCmpA.marks Subject.math) (studentCmpB.marks Subject.math) 0 = false ∧
    winnerMarker (studentCmpA.marks Subject.math) (studentCmpB.marks Subject.math) 1 = false ∧
    comparisonLegendItems studentCmpA studentCmpB = [("Science", "Badri")] := by
  obtain ⟨hm, h0, h1⟩ :=
    (comparison_winner_legend studentCmpA studentCmpB).2.1 Subject.math (by decide)
  refine ⟨hm, h0, h1, ?_⟩
  rw [(comparison_winner_legend studentCmpA studentCmpB).1]
  decide

/-- updateAllVisuals never changes the roster or the checkbox selection. -/
theorem updAllVisualsState_fields (st : AppState) :
    (updAllVisualsState st).students = st.students ∧
    (updAllVisualsState st).selectedStudents = st.selectedStudents := by
  unfold updAllVisualsState
  cases hc : st.selectedStudentForRadar with
  | none => exact ⟨rfl, rfl⟩
  | some rid =>
    dsimp only
    by_cases h0 : (rid != 0) = true
    · by_cases hany : (st.students.any (fun s => s.id == rid)) = true
      · rw [if_pos h0, if_pos hany]
        exact ⟨rfl, rfl⟩
      · rw [if_pos h0, if_neg hany]
        exact ⟨rfl, rfl⟩
    · rw [if_neg h0]
      exact ⟨rfl, rfl⟩

/-- After updateAllVisuals a still-set radar id (nonzero before) denotes an
existing student. -/
theorem updAllVisualsState_radar_valid (st : AppState)
    (h0 : ∀ rid, st.selectedStudentForRadar = some rid → rid ≠ 0) :
    ∀ rid, (updAllVisualsState st).selectedStudentForRadar = some rid →
      ∃ s ∈ st.students, s.id = rid := by
  intro rid hr
  unfold updAllVisualsState at hr
  cases hc : st.selectedStudentForRadar with
  | none =>
    rw [hc] at hr
    dsimp only at hr
    rw [hc] at hr
    cases hr
  | some rid0 =>
    rw [hc] at hr
    dsimp only at hr
    have hne : (rid0 != 0) = true := by
      have := h0 rid0 hc
      simpa using this
    rw [if_pos hne] at hr
    by_cases hany : (st.students.any (fun s => s.id == rid0)) = true
    · rw [if_pos hany] at hr
      rw [hc] at hr
      have : rid0 = rid := Option.some.inj hr
      subst this
      obtain ⟨s, hs, hsid⟩ := List.any_eq_true.mp hany
      exact ⟨s, hs, by simpa using hsid⟩
    · rw [if_neg hany] at hr
      cases hr

/-- updateAllVisuals is the identity when the radar id (if any) still exists. -/
theorem updAllVisualsState_eq_self (st : AppState)
    (h : ∀ rid, st.selectedStudentForRadar = some rid → ∃ s ∈ st.students, s.id = rid) :
    updAllVisualsState st = st := by
  unfold updAllVisualsState
  cases hc : st.selectedStudentForRadar with
  | none => rfl
  | some rid =>
    dsimp only
    obtain ⟨s, hs, hsid⟩ := h rid hc
    have hany : (st.students.any (fun s => s.id == rid)) = true := by
      rw [List.any_eq_true]
      exact ⟨s, hs, by simp [hsid]⟩
    by_cases h0 : (rid != 0) = true
    · rw [if_pos h0, if_pos hany]
    · rw [if_neg h0]

/-- setMark preserves the id sequence of the roster. -/
theorem setMark_map_id (l : List Student) (id : Int) (subj : Subject) (v : Int) :
    (setMark l id subj v).map (fun s => s.id) = l.map (fun s => s.id) := by
  induction l with
  | nil => rfl
  | cons a rest ih =>
    by_cases ha : (a.id == id) = true
    · simp [setMark, ha]
    · simp [setMark, ha, ih]

/-- An id-existence statement transfers along an equal id sequence. -/
theorem exists_id_of_map_id {l l2 : List Student}
    (h : l2.map (fun s => s.id) = l.map (fun s => s.id)) (x : Int)
    (hx : ∃ s ∈ l, s.id = x) : ∃ s ∈ l2, s.id = x := by
  obtain ⟨s, hs, hsid⟩ := hx
  have hmem : x ∈ l2.map (fun s => s.id) := by
    rw [h]
    rw [List.mem_map]
    exact ⟨s, hs, hsid⟩
  obtain ⟨t, ht, hte⟩ := List.mem_map.mp hmem
  exact ⟨t, ht, hte⟩

/-- A pointwise id property transfers along an equal id sequence. -/
theorem forall_id_of_map_id {l l2 : List Student}
    (h : l2.map (fun s => s.id) = l.map (fun s => s.id)) (P : Int → Prop)
    (hl : ∀ s ∈ l, P s.id) : ∀ s ∈ l2, P s.id := by
  intro s hs
  have hmem : s.id ∈ l2.map (fun t => t.id) := List.mem_map_of_mem _ hs
  rw [h] at hmem
  obtain ⟨t, ht, hte⟩ := List.mem_map.mp hmem
  rw [← hte]
  exact hl t ht

/-- A successful handleMarkEdit leaves the id sequence unchanged. -/
theorem handleMarkEdit_ok_map_id (students : List Student) (id : Int) (subj : Subject)
    (raw : String) (l : List Student)
    (h : handleMarkEdit students id subj raw = Except.ok l) :
    l.map (fun s => s.id) = students.map (fun s => s.id) := by
  unfold handleMarkEdit at h
  cases hfind : students.find? (fun s => s.id == id) with
  | none =>
    rw [hfind] at h
    dsimp only at h
    cases h
  | some sf =>
    rw [hfind] at h
    dsimp only at h
    cases hparse : parseIntJS (jsTrim raw) with
    | none =>
      rw [hparse] at h
      dsimp only at h
      rw [← Except.ok.inj h]
    | some v =>
      rw [hparse] at h
      dsimp only at h
      by_cases hrange : v < 0 ∨ 100 < v
      · rw [if_pos hrange] at h
        rw [← Except.ok.inj h]
      · rw [if_neg hrange] at h
        rw [← Except.ok.inj h]
        exact setMark_map_id students id subj v

/-- A successful requestAdd returns the roster with the generated record
appended. -/
theorem requestAdd_some_eq (students : List Student) (name rollNo : String)
    (marks : Subject → Int) (l : List Student)
    (h : requestAdd students name rollNo marks = some l) :
    l = students ++ [Student.mk (newId students) rollNo name marks] := by
  by_cases hb : (students.any (fun s => s.rollNo == rollNo)) = true
  · simp only [requestAdd, if_pos hb] at h
    cases h
  · simp only [requestAdd, if_neg hb] at h
    exact (Option.some.inj h).symm

/-- The generated id is at least 1 when all present ids are. -/
theorem newId_pos (students : List Student) (hp : ∀ s ∈ students, 1 ≤ s.id) :
    1 ≤ newId students := by
  cases hn : students with
  | nil => exact le_refl 1
  | cons a rest =>
    obtain ⟨s, hs, he⟩ := newId_succ_mem (a :: rest) (by simp)
    rw [he]
    have := hp s (by rw [hn]; exact hs)
    omega

/-- C3: every operation preserves the selection invariant; a checkbox check
while 2 are selected is rejected without touching the selection, and a delete
purges the deleted id from both selection slots. -/
theorem selection_state_invariant (st : AppState) (op : Op)
    (hInv : SelInv st) (hleg : legitimateOp st op) :
    SelInv (step st op) ∧
    (∀ id, op = Op.check id → st.selectedStudents.length = 2 →
        (step st op).selectedStudents = st.selectedStudents ∧
        id ∉ (step st op).selectedStudents) ∧
    (∀ id, op = Op.delete id →
        id ∉ (step st op).selectedStudents ∧
        (step st op).selectedStudentForRadar ≠ some id) := by
  obtain ⟨hlen, hsel, hradar, hpos, hnodup⟩ := hInv
  cases op with
  | check id =>
    obtain ⟨hmem, hnotin⟩ := hleg
    by_cases hlt : st.selectedStudents.length < 2
    · have hstep : step st (Op.check id)
          = { st with selectedStudents := st.selectedStudents ++ [id] } := by
        simp [step, checkboxChange, hlt]
      rw [hstep]
      refine ⟨⟨?_, ?_, hradar, hpos, hnodup⟩, ?_, ?_⟩
      · show (st.selectedStudents ++ [id]).length ≤ 2
        rw [List.length_append]
        simp only [List.length_singleton]
        omega
      · intro x hx
        rcases List.mem_append.mp hx with hx1 | hx2
        · exact hsel x hx1
        · rw [List.mem_singleton.mp hx2]
          exact hmem
      · intro id2 he hlen2
        omega
      · intro id2 he
        exact Op.noConfusion he
    · have hstep : step st (Op.check id) = st := by
        simp [step, checkboxChange, hlt]
      rw [hstep]
      refine ⟨⟨hlen, hsel, hradar, hpos, hnodup⟩, ?_, ?_⟩
      · intro id2 he hlen2
        injection he with he2
        subst he2
        exact ⟨rfl, hnotin⟩
      · intro id2 he
        exact Op.noConfusion he
  | uncheck id =>
    have hstep : step st (Op.uncheck id)
        = { st with selectedStudents := st.selectedStudents.filter (fun x => x != id) } := by
      simp [step, checkboxChange]
    rw [hstep]
    refine ⟨⟨?_, ?_, hradar, hpos, hnodup⟩, ?_, ?_⟩
    · show (st.selectedStudents.filter (fun x => x != id)).length ≤ 2
      exact le_trans (List.length_filter_le _ _) hlen
    · intro x hx
      exact hsel x (List.mem_of_mem_filter hx)
    · intro id2 he hlen2
      exact Op.noConfusion he
    · intro id2 he
      exact Op.noConfusion he
  | rowClick id =>
    have hstep : step st (Op.rowClick id) = { st with selectedStudentForRadar := some id } := rfl
    rw [hstep]
    refine ⟨⟨hlen, hsel, ?_, hpos, hnodup⟩, ?_, ?_⟩
    · intro rid hr
      have hr2 : id = rid := Option.some.inj hr
      subst hr2
      exact hleg
    · intro id2 he hlen2
      exact Op.noConfusion he
    · intro id2 he
      exact Op.noConfusion he
  | add name rollNo marks =>
    cases hreq : requestAdd st.students name rollNo marks with
    | none =>
      have hstep : step st (Op.add name rollNo marks) = st := by
        simp [step, addStudentState, hreq]
      rw [hstep]
      exact ⟨⟨hlen, hsel, hradar, hpos, hnodup⟩,
        fun id2 he _ => Op.noConfusion he, fun id2 he => Op.noConfusion he⟩
    | some l =>
      have hl : l = st.students ++ [Student.mk (newId st.students) rollNo name marks] :=
        requestAdd_some_eq st.students name rollNo marks l hreq
      have hstep : step st (Op.add name rollNo marks)
          = updAllVisualsState { st with students := l } := by
        simp [step, addStudentState, hreq]
      rw [hstep]
      have hfields := updAllVisualsState_fields { st with students := l }
      have hradar0 : ∀ rid,
          ({ st with students := l } : AppState).selectedStudentForRadar = some rid →
            rid ≠ 0 := by
        intro rid hr
        obtain ⟨s, hs, hsid⟩ := hradar rid hr
        have := hpos s hs
        omega
      have hradar2 := updAllVisualsState_radar_valid { st with students := l } hradar0
      refine ⟨⟨?_, ?_, ?_, ?_, ?_⟩,
        fun id2 he _ => Op.noConfusion he, fun id2 he => Op.noConfusion he⟩
      · rw [hfields.2]
        exact hlen
      · intro x hx
        rw [hfields.2] at hx
        rw [hfields.1]
        show ∃ s ∈ l, s.id = x
        rw [hl]
        obtain ⟨s, hs, hsid⟩ := hsel x hx
        exact ⟨s, List.mem_append_left _ hs, hsid⟩
      · intro rid hr
        rw [hfields.1]
        exact hradar2 rid hr
      · rw [hfields.1]
        show ∀ s ∈ l, 1 ≤ s.id
        rw [hl]
        intro s hs
        rcases List.mem_append.mp hs with hs1 | hs2
        · exact hpos s hs1
        · rw [List.mem_singleton.mp hs2]
          exact newId_pos st.students hpos
      · rw [hfields.1]
        show ((l.map (fun s => s.id))).Nodup
        rw [hl, List.map_append, List.nodup_append]
        refine ⟨hnodup, by simp, ?_⟩
        intro x hx hx2
        simp only [List.map_cons, List.map_nil, List.mem_singleton] at hx2
        obtain ⟨t, ht, hte⟩ := List.mem_map.mp hx
        have hgt := newId_gt st.students t ht
        rw [hte, hx2] at hgt
        exact lt_irrefl _ hgt
  | delete id =>
    have hstep : step st (Op.delete id)
        = updAllVisualsState
            { st with
              students := st.students.filter (fun s => s.id != id),
              selectedStudents :=
                if id ∈ st.selectedStudents then
                  st.selectedStudents.filter (fun x => x != id)
                else st.selectedStudents } := by
      simp only [step, deleteStudentState]
    have hsel2_sub : ∀ x ∈ (if id ∈ st.selectedStudents then
          st.selectedStudents.filter (fun x => x != id) else st.selectedStudents),
        x ∈ st.selectedStudents ∧ x ≠ id := by
      intro x hx
      by_cases hc : id ∈ st.selectedStudents
      · rw [if_pos hc] at hx
        have h2 := List.mem_filter.mp hx
        refine ⟨h2.1, ?_⟩
        have h3 := h2.2
        simpa using h3
      · rw [if_neg hc] at hx
        refine ⟨hx, ?_⟩
        intro he
        exact hc (he ▸ hx)
    have hsel2_len : (if id ∈ st.selectedStudents then
          st.selectedStudents.filter (fun x => x != id)
        else st.selectedStudents).length ≤ st.selectedStudents.length := by
      by_cases hc : id ∈ st.selectedStudents
      · rw [if_pos hc]
        exact List.length_filter_le _ _
      · rw [if_neg hc]
    have hid_not : id ∉ (if id ∈ st.selectedStudents then
          st.selectedStudents.filter (fun x => x != id) else st.selectedStudents) :=
      fun hmem2 => (hsel2_sub id hmem2).2 rfl
    rw [hstep]
    have hfields := updAllVisualsState_fields
      { st with
        students := st.students.filter (fun s => s.id != id),
        selectedStudents :=
          if id ∈ st.selectedStudents then
            st.selectedStudents.filter (fun x => x != id)
          else st.selectedStudents }
    have hradar0 : ∀ rid,
        ({ st with
            students := st.students.filter (fun s => s.id != id),
            selectedStudents :=
              if id ∈ st.selectedStudents then
                st.selectedStudents.filter (fun x => x != id)
              else st.selectedStudents } : AppState).selectedStudentForRadar = some rid →
          rid ≠ 0 := by
      intro rid hr
      obtain ⟨s, hs, hsid⟩ := hradar rid hr
      have := hpos s hs
      omega
    have hradar2 := updAllVisualsState_radar_valid _ hradar0
    refine ⟨⟨?_, ?_, ?_, ?_, ?_⟩, fun id2 he _ => Op.noConfusion he, ?_⟩
    · rw [hfields.2]
      exact le_trans hsel2_len hlen
    · intro x hx
      rw [hfields.2] at hx
      rw [hfields.1]
      obtain ⟨hxs, hxne⟩ := hsel2_sub x hx
      obtain ⟨s, hs, hsid⟩ := hsel x hxs
      refine ⟨s, ?_, hsid⟩
      show s ∈ st.students.filter (fun s => s.id != id)
      rw [List.mem_filter]
      refine ⟨hs, ?_⟩
      simp [hsid, hxne]
    · intro rid hr
      rw [hfields.1]
      exact hradar2 rid hr
    · rw [hfields.1]
      intro s hs
      exact hpos s (List.mem_of_mem_filter hs)
    · rw [hfields.1]
      show (((st.students.filter (fun s => s.id != id)).map (fun s => s.id))).Nodup
      have hsub : (st.students.filter (fun s => s.id != id)).Sublist st.students :=
        List.filter_sublist st.students
      exact hnodup.sublist (hsub.map (fun s => s.id))
    · intro id2 he
      injection he with he2
      subst he2
      constructor
      · rw [hfields.2]
        exact hid_not
      · intro hcontra
        obtain ⟨s, hs, hsid⟩ := hradar2 id hcontra
        have h2 := (List.mem_filter.mp hs).2
        rw [hsid] at h2
        simp at h2
  | editMark id subj raw =>
    cases hres : handleMarkEdit st.students id subj raw with
    | error e =>
      have hstep : step st (Op.editMark id subj raw) = st := by
        simp [step, editMarkState, hres]
      rw [hstep]
      exact ⟨⟨hlen, hsel, hradar, hpos, hnodup⟩,
        fun id2 he _ => Op.noConfusion he, fun id2 he => Op.noConfusion he⟩
    | ok l =>
      have hmap := handleMarkEdit_ok_map_id st.students id subj raw l hres
      have hstep : step st (Op.editMark id subj raw)
          = updAllVisualsState { st with students := l } := by
        simp [step, editMarkState, hres]
      rw [hstep]
      have hfields := updAllVisualsState_fields { st with students := l }
      have hradar0 : ∀ rid,
          ({ st with students := l } : AppState).selectedStudentForRadar = some rid →
            rid ≠ 0 := by
        intro rid hr
        obtain ⟨s, hs, hsid⟩ := hradar rid hr
        have := hpos s hs
        omega
      have hradar2 := updAllVisualsState_radar_valid { st with students := l } hradar0
      refine ⟨⟨?_, ?_, ?_, ?_, ?_⟩,
        fun id2 he _ => Op.noConfusion he, fun id2 he => Op.noConfusion he⟩
      · rw [hfields.2]
        exact hlen
      · intro x hx
        rw [hfields.2] at hx
        rw [hfields.1]
        exact exists_id_of_map_id hmap x (hsel x hx)
      · intro rid hr
        rw [hfields.1]
        exact hradar2 rid hr
      · rw [hfields.1]
        exact forall_id_of_map_id hmap (fun n => 1 ≤ n) hpos
      · rw [hfields.1]
        show ((l.map (fun s => s.id))).Nodup
        rw [hmap]
        exact hnodup

/-- SelInv for a state without radar selection, from decidable parts. -/
theorem selInv_of_lists (students : List Student) (sel : List Int)
    (h1 : sel.length ≤ 2) (h2 : ∀ id ∈ sel, ∃ s ∈ students, s.id = id)
    (h3 : ∀ s ∈ students, 1 ≤ s.id) (h4 : (students.map (fun s => s.id)).Nodup) :
    SelInv ⟨students, sel, none⟩ :=
  ⟨h1, h2, fun _ hr => Option.noConfusion hr, h3, h4⟩

/-- Witness for C3: on the sample roster, checking a third id while two are
selected leaves the selection unchanged, and the invariant holds after a
first check. -/
theorem selection_state_invariant_witness :
    SelInv (step ⟨studentsData, [], none⟩ (Op.check 104)) ∧
    (step ⟨studentsData, [104, 101], none⟩ (Op.check 103)).selectedStudents = [104, 101] ∧
    103 ∉ (step ⟨studentsData, [104, 101], none⟩ (Op.check 103)).selectedStudents ∧
    104 ∉ (step ⟨studentsData, [104, 101], none⟩ (Op.delete 104)).selectedStudents := by
  have h1 := selection_state_invariant ⟨studentsData, [], none⟩ (Op.check 104)
    (selInv_of_lists studentsData [] (by decide) (by decide) (by decide) (by decide))
    ⟨by decide, by decide⟩
  have h2 := selection_state_invariant ⟨studentsData, [104, 101], none⟩ (Op.check 103)
    (selInv_of_lists studentsData [104, 101] (by decide) (by decide) (by decide) (by decide))
    ⟨by decide, by decide⟩
  have h3 := selection_state_invariant ⟨studentsData, [104, 101], none⟩ (Op.delete 104)
    (selInv_of_lists studentsData [104, 101] (by decide) (by decide) (by decide) (by decide))
    trivial
  exact ⟨h1.1, (h2.2.1 103 rfl rfl).1, (h2.2.1 103 rfl rfl).2, (h3.2.2 104 rfl).1⟩

/-- With distinct ids, find? by a member's id returns exactly that member. -/
theorem find_id_of_nodup (l : List Student) (s : Student) (hs : s ∈ l)
    (hnd : (l.map (fun t => t.id)).Nodup) :
    l.find? (fun t => t.id == s.id) = some s := by
  induction l with
  | nil => cases hs
  | cons a rest ih =>
    rw [List.map_cons, List.nodup_cons] at hnd
    obtain ⟨hna, hnd2⟩ := hnd
    rcases List.mem_cons.mp hs with rfl | hs2
    · exact List.find?_cons_of_pos _ (by simp)
    · have hne : (a.id == s.id) = false := by
        rw [beq_eq_false_iff_ne]
        intro he
        exact hna (by rw [he]; exact List.mem_map_of_mem _ hs2)
      rw [List.find?_cons_of_neg _ (by simp [hne])]
      exact ih hs2 hnd2

/-- SelInv for a state with a radar selection, from decidable parts. -/
theorem selInv_of_lists_radar (students : List Student) (sel : List Int) (rid0 : Int)
    (h1 : sel.length ≤ 2) (h2 : ∀ id ∈ sel, ∃ s ∈ students, s.id = id)
    (h2b : ∃ s ∈ students, s.id = rid0)
    (h3 : ∀ s ∈ students, 1 ≤ s.id) (h4 : (students.map (fun s => s.id)).Nodup) :
    SelInv ⟨students, sel, some rid0⟩ := by
  refine ⟨h1, h2, ?_, h3, h4⟩
  intro rid hr
  have h5 : rid0 = rid := Option.some.inj hr
  subst h5
  exact h2b

/-- C4: the insight panel resolution priority: two checkbox selections show
the multi placeholder; exactly one shows that student's insight even when a
row-click focus exists; with none, a focused student's insight is shown;
otherwise the default placeholder. -/
theorem insight_panel_priority (st : AppState) (prev : Panel) (hInv : SelInv st) :
    (st.selectedStudents.length = 2 → restoreInsightState st prev = Panel.multiPlaceholder) ∧
    (∀ id s, st.selectedStudents = [id] → s ∈ st.students → s.id = id →
        restoreInsightState st prev = Panel.shown s.name (getInsight s)) ∧
    (∀ rid s, st.selectedStudents = [] → st.selectedStudentForRadar = some rid →
        s ∈ st.students → s.id = rid →
        restoreInsightState st prev = Panel.shown s.name (getInsight s)) ∧
    (st.selectedStudents = [] → st.selectedStudentForRadar = none →
        restoreInsightState st prev = Panel.defaultPlaceholder) := by
  obtain ⟨hlen, hsel, hradar, hpos, hnodup⟩ := hInv
  refine ⟨?_, ?_, ?_, ?_⟩
  · intro h2
    unfold restoreInsightState
    rw [if_pos (by omega)]
  · intro id s hsel1 hmem hid
    subst hid
    unfold restoreInsightState
    rw [hsel1]
    rw [if_neg (by simp), if_pos (by simp)]
    rw [show ([s.id] : List Int).headI = s.id from rfl]
    unfold showInsightPanel
    rw [find_id_of_nodup st.students s hmem hnodup]
  · intro rid s hsel1 hrad hmem hid
    subst hid
    unfold restoreInsightState
    rw [hsel1, hrad]
    have hpos1 := hpos s hmem
    rw [if_neg (by simp), if_neg (by simp), if_pos (by simp [isTruthy]; omega)]
    rw [show (some s.id).getD 0 = s.id from rfl]
    unfold showInsightPanel
    rw [find_id_of_nodup st.students s hmem hnodup]
  · intro h1 h2
    unfold restoreInsightState
    rw [h1, h2]
    rw [if_neg (by simp), if_neg (by simp), if_neg (by simp [isTruthy])]

/-- Witness for C4: one checked checkbox shows that student's insight even
though no row focus exists, and two checked checkboxes show the multi
placeholder even though a row focus exists. -/
theorem insight_panel_priority_witness :
    restoreInsightState ⟨studentsData, [104], none⟩ Panel.defaultPlaceholder
      = Panel.shown stu104.name (getInsight stu104) ∧
    restoreInsightState ⟨studentsData, [104, 101], some 103⟩ Panel.defaultPlaceholder
      = Panel.multiPlaceholder := by
  constructor
  · exact (insight_panel_priority ⟨studentsData, [104], none⟩ Panel.defaultPlaceholder
      (selInv_of_lists studentsData [104] (by decide) (by decide) (by decide)
        (by decide))).2.1 104 stu104 rfl (by decide) rfl
  · exact (insight_panel_priority ⟨studentsData, [104, 101], some 103⟩ Panel.defaultPlaceholder
      (selInv_of_lists_radar studentsData [104, 101] 103 (by decide) (by decide) (by decide)
        (by decide) (by decide))).1 rfl

/-- Counterexample for C9: editing a mark of an id absent from the roster is
not a silent no-op: the handler dereferences undefined and throws. -/
theorem missing_id_edit_counterexample :
    handleMarkEdit studentsData 999 Subject.math "50" = Except.error "TypeError" ∧
    ∀ l, handleMarkEdit studentsData 999 Subject.math "50" ≠ Except.ok l := by
  refine ⟨rfl, ?_⟩
  intro l h
  rw [show handleMarkEdit studentsData 999 Subject.math "50"
      = Except.error "TypeError" from rfl] at h
  cases h

/-- C9 amended: with an absent id, delete and show-insight are silent no-ops
(state and panel unchanged); the mark-edit handler instead throws a
TypeError, though it too leaves the state unchanged. -/
theorem missing_id_silent (st : AppState) (id : Int) (subj : Subject) (raw : String)
    (prev : Panel) (hInv : SelInv st) (habs : ∀ s ∈ st.students, s.id ≠ id) :
    deleteStudentState st id = st ∧
    showInsightPanel st.students id prev = prev ∧
    handleMarkEdit st.students id subj raw = Except.error "TypeError" ∧
    editMarkState st id subj raw = st := by
  obtain ⟨hlen, hsel, hradar, hpos, hnodup⟩ := hInv
  have hfind : st.students.find? (fun s => s.id == id) = none := by
    rw [List.find?_eq_none]
    intro s hs
    simp [habs s hs]
  have herr : handleMarkEdit st.students id subj raw = Except.error "TypeError" := by
    unfold handleMarkEdit
    rw [hfind]
  refine ⟨?_, ?_, herr, ?_⟩
  · unfold deleteStudentState
    have hnotin : id ∉ st.selectedStudents := by
      intro hmem
      obtain ⟨s, hs, hsid⟩ := hsel id hmem
      exact habs s hs hsid
    have hfil : st.students.filter (fun s => s.id != id) = st.students := by
      rw [List.filter_eq_self]
      intro s hs
      simp [habs s hs]
    rw [if_neg hnotin, hfil]
    exact updAllVisualsState_eq_self st hradar
  · unfold showInsightPanel
    rw [hfind]
  · unfold editMarkState
    rw [herr]

/-- Witness for C9's amended statement, at id 999 on the sample state. -/
theorem missing_id_silent_witness :
    deleteStudentState ⟨studentsData, [], none⟩ 999 = ⟨studentsData, [], none⟩ ∧
    showInsightPanel studentsData 999 Panel.defaultPlaceholder = Panel.defaultPlaceholder ∧
    editMarkState ⟨studentsData, [], none⟩ 999 Subject.science "60"
      = ⟨studentsData, [], none⟩ := by
  have h := missing_id_silent ⟨studentsData, [], none⟩ 999 Subject.science "60"
    Panel.defaultPlaceholder
    (selInv_of_lists studentsData [] (by decide) (by decide) (by decide) (by decide))
    (by decide)
  exact ⟨h.1, h.2.1, h.2.2.2⟩

/-- The conditional search filter equals an unconditional filter by
matchesSearch. -/
theorem search_stage_eq (l : List StudentR) (t : String) :
    (if t ≠ "" then
        l.filter (fun s =>
          strIncludes (lowerStr s.student.name) t ||
          strIncludes (lowerStr s.student.rollNo) t)
      else l)
      = l.filter (fun s => matchesSearch t s) := by
  by_cases ht : t = ""
  · rw [if_neg (by simp [ht])]
    have hall : ∀ s ∈ l, matchesSearch t s = true := by
      intro s hs
      simp [matchesSearch, ht]
    exact (List.filter_eq_self.mpr hall).symm
  · rw [if_pos ht]
    refine List.filter_congr ?_
    intro s hs
    have hb : (t == "") = false := beq_eq_false_iff_ne.mpr ht
    simp [matchesSearch, hb]

/-- The conditional category filter equals an unconditional filter by
matchesFilter. -/
theorem filter_stage_eq (l : List StudentR) (filt : String) :
    (if filt == "top" then l.filter (fun s => decide ((75 : ℚ) ≤ s.average))
      else if filt == "below" then l.filter (fun s => decide (s.average < 50))
      else l)
      = l.filter (fun s => matchesFilter filt s) := by
  by_cases h1 : (filt == "top") = true
  · rw [if_pos h1]
    refine List.filter_congr ?_
    intro s hs
    simp [matchesFilter, h1]
  · rw [if_neg h1]
    by_cases h2 : (filt == "below") = true
    · rw [if_pos h2]
      refine List.filter_congr ?_
      intro s hs
      simp [matchesFilter, h1, h2]
    · rw [if_neg h2]
      have hall : ∀ s ∈ l, matchesFilter filt s = true := by
        intro s hs
        simp [matchesFilter, h1, h2]
      exact (List.filter_eq_self.mpr hall).symm

/-- C2: the query pipeline keeps exactly the ranked students matching both
the search and the category filter (a permutation of that filtered list, so
each kept entry still carries its globally computed rank), for every search
term, category, sort key and locale comparator. -/
theorem renderTable_query_pipeline (students : List Student) (searchRaw filt sortKey : String)
    (cmp : String → String → Int) :
    (renderTableList students searchRaw filt sortKey cmp).Perm
      ((calculateRanks students).filter
        (fun s => matchesSearch (jsTrim (lowerStr searchRaw)) s && matchesFilter filt s)) ∧
    ∀ r ∈ renderTableList students searchRaw filt sortKey cmp, r ∈ calculateRanks students := by
  have hperm : (renderTableList students searchRaw filt sortKey cmp).Perm
      ((calculateRanks students).filter
        (fun s => matchesSearch (jsTrim (lowerStr searchRaw)) s && matchesFilter filt s)) := by
    simp only [renderTableList]
    rw [search_stage_eq, filter_stage_eq, List.filter_filter]
    rw [show List.filter
          (fun a => matchesFilter filt a && matchesSearch (jsTrim (lowerStr searchRaw)) a)
          (calculateRanks students)
        = List.filter
            (fun s => matchesSearch (jsTrim (lowerStr searchRaw)) s && matchesFilter filt s)
            (calculateRanks students)
      from List.filter_congr (fun a _ => Bool.and_comm _ _)]
    by_cases hn : (sortKey == "name") = true
    · rw [if_pos hn]
      exact List.perm_insertionSort (nameLe cmp) _
    · rw [if_neg hn]
      by_cases hr : (sortKey == "roll") = true
      · rw [if_pos hr]
        exact List.perm_insertionSort (rollLe cmp) _
      · rw [if_neg hr]
  refine ⟨hperm, ?_⟩
  intro r hrm
  have hr2 := hperm.mem_iff.mp hrm
  exact List.mem_of_mem_filter hr2

/-- Concrete evaluation of the pipeline: searching "1" on the tie roster
keeps exactly the student with roll number "1". -/
theorem renderTableList_rosterTie :
    renderTableList rosterTie "1" "all" "rank" cmp0 = [rankedTieHead] := by
  simp only [renderTableList, calculateRanks_rosterTie]
  decide

/-- Witness for C2: the pipeline output on the tie roster is the filter of
the ranked roster, and its member keeps its globally computed rank entry. -/
theorem renderTable_query_pipeline_witness :
    (renderTableList rosterTie "1" "all" "rank" cmp0).Perm
      ((calculateRanks rosterTie).filter
        (fun s => matchesSearch (jsTrim (lowerStr "1")) s && matchesFilter "all" s)) ∧
    rankedTieHead ∈ calculateRanks rosterTie := by
  refine ⟨(renderTable_query_pipeline rosterTie "1" "all" "rank" cmp0).1, ?_⟩
  refine (renderTable_query_pipeline rosterTie "1" "all" "rank" cmp0).2 rankedTieHead ?_
  rw [renderTableList_rosterTie]
  exact List.mem_cons_self _ _
